import Mathlib

/-!
Verification of the data/aggregation layer of a single-page box-office
dashboard (`app.py`).  The script loads a parquet dataset into a pandas
dataframe `df`, parses the `dt` column with
`pd.to_datetime(df[dt], format=%Y%m%d, errors=coerce)`, and then
answers a fixed set of aggregation queries:

* column projection with a default fallback (`display_columns`);
* overall and per-date null ratios of `multiMovieYn` / `repNationCd`;
* top-10 rankings by summed `salesAmt` / `audiCnt` per `movieNm`
  (`groupby ... sum ... sort_values(ascending=False) ... head(10)`);
* an inclusive date-range filter followed by a
  `groupby([dt, multiMovieYn, repNationCd])[audiCnt].sum()`;
* a per-movie series extractor
  (`df[df[movieNm] == movie_name][[dt, audiCnt, salesAmt]]`).

Rows are embedded as a structure over the columns the queries touch;
dataframes become lists of rows, pandas group-by becomes "sorted distinct
keys, then per-key filtered aggregation" (pandas sorts group keys and drops
rows whose key is null), and `sort_values(ascending=False)` becomes the
reversal of a stable ascending sort.  Pandas reverses an ascending
`argsort(kind=quicksort)` for a descending sort, and that numpy sort is
unstable in general: it equals the stable model only below the numpy
small-array insertion-sort cutoff, so every theorem about the order of
equal-sum entries carries an explicit bound on the number of groups, while
order-insensitive facts (lengths, descending values, sums, memberships)
are stated unconditionally.
-/

/-- A calendar date as produced by parsing a `YYYYMMDD` raw value. -/
structure Date where
  year : Nat
  month : Nat
  day : Nat
deriving DecidableEq

/-- Numeric key `YYYYMMDD` of a date; on valid calendar dates this order
agrees with chronological (datetime64) order, which is how the dataframe
compares `dt` values. -/
def dateKey (d : Date) : Nat := d.year * 10000 + d.month * 100 + d.day

/-- Gregorian leap-year rule, as used by python `datetime`. -/
def isLeapYear (y : Nat) : Bool := (y % 4 == 0 && y % 100 != 0) || y % 400 == 0

/-- Number of days of month `m` in year `y` (python `calendar` rules). -/
def daysInMonth (y m : Nat) : Nat :=
  if m = 2 then (if isLeapYear y then 29 else 28)
  else if m = 4 ∨ m = 6 ∨ m = 9 ∨ m = 11 then 30
  else 31

/-- `validDate y m d` says `y-m-d` is a real calendar date that python
`datetime` accepts (year at least `MINYEAR = 1`). -/
def validDate (y m d : Nat) : Bool :=
  decide (1 ≤ y) && decide (1 ≤ m) && decide (m ≤ 12) &&
  decide (1 ≤ d) && decide (d ≤ daysInMonth y m)

/-- Key of the first midnight representable as a pandas `datetime64[ns]`
timestamp: the nanosecond epoch starts inside 1677-09-21, so 1677-09-22 is
the first fully representable day. -/
def nsMinKey : Nat := 16770922

/-- Key of the last midnight representable as a pandas `datetime64[ns]`
timestamp (the epoch ends during 2262-04-11). -/
def nsMaxKey : Nat := 22620411

/-- Whether a date is inside the `datetime64[ns]` representable range;
`pd.to_datetime(..., errors=coerce)` turns out-of-range dates into `NaT`. -/
def inNsBounds (d : Date) : Bool :=
  decide (nsMinKey ≤ dateKey d) && decide (dateKey d ≤ nsMaxKey)

/-- Numeric value of an ASCII digit character. -/
def digVal (c : Char) : Nat := c.toNat - 48

/-- ASCII digit character of a value below 10. -/
def digChar (n : Nat) : Char := Char.ofNat (n + 48)

/-- The `%d` component of the strptime regex, `(3[01]|[12]\d|0[1-9]|[1-9])`,
required to consume the whole remaining input (strptime with `exact=True`
rejects unconverted trailing data).  Only a full two-character alternative
can consume two remaining characters and only the one-character
alternative `[1-9]` can consume exactly one, so no backtracking survives
inside `%d` itself (the two-character alternatives are mutually
exclusive). -/
def dayExact : List Char → Option Nat
  | [c0] => if c0.isDigit = true ∧ 1 ≤ digVal c0 then some (digVal c0) else none
  | [c0, c1] =>
    if c0 = '3' ∧ c1.isDigit = true ∧ digVal c1 ≤ 1 then some (30 + digVal c1)
    else if (c0 = '1' ∨ c0 = '2') ∧ c1.isDigit = true then
      some (10 * digVal c0 + digVal c1)
    else if c0 = '0' ∧ c1.isDigit = true ∧ 1 ≤ digVal c1 then some (digVal c1)
    else none
  | _ => none

/-- The `%m%d` tail of the strptime regex: month alternatives
`(1[0-2]|0[1-9]|[1-9])` are tried in that order, and when the chosen
two-character month leaves no full `%d` match the engine backtracks to the
one-character month `[1-9]` (possible only when the first character is 1;
a leading 0 has no one-character alternative). -/
def mdExact : List Char → Option (Nat × Nat)
  | c0 :: c1 :: rest =>
    if c0 = '1' ∧ c1.isDigit = true ∧ digVal c1 ≤ 2 then
      match dayExact rest with
      | some d => some (10 + digVal c1, d)
      | none =>
        match dayExact (c1 :: rest) with
        | some d => some (digVal c0, d)
        | none => none
    else if c0 = '0' ∧ c1.isDigit = true ∧ 1 ≤ digVal c1 then
      match dayExact rest with
      | some d => some (digVal c1, d)
      | none => none
    else if c0.isDigit = true ∧ 1 ≤ digVal c0 then
      match dayExact (c1 :: rest) with
      | some d => some (digVal c0, d)
      | none => none
    else none
  | _ => none

/-- `pd.to_datetime(raw, format=%Y%m%d, errors=coerce)` on one raw value.
The format is matched by the strptime TimeRE regexes: `%Y` is exactly four
digits, `%m` and `%d` are one or two digits (month 1-12, day 1-31, regex
alternatives tried with backtracking), and the whole value must be
consumed — so unpadded values such as 2024011 or 202411 fully match as
2024-01-01.  The matched numbers must then form a valid calendar date and
the resulting timestamp must fit in `datetime64[ns]`; any failure coerces
to `NaT`, modelled as `none`. -/
def parseDate (s : String) : Option Date :=
  match s.data with
  | c0 :: c1 :: c2 :: c3 :: rest =>
    if c0.isDigit && c1.isDigit && c2.isDigit && c3.isDigit then
      (mdExact rest).bind (fun md =>
        let y := 1000 * digVal c0 + 100 * digVal c1 + 10 * digVal c2 + digVal c3
        if validDate y md.1 md.2 && inNsBounds ⟨y, md.1, md.2⟩ then
          some ⟨y, md.1, md.2⟩
        else none)
    else none
  | _ => none

/-- `strftime(%Y%m%d)`: format a (four-digit-year) date back to its raw
eight-digit form. -/
def formatDate (d : Date) : String :=
  String.mk [digChar (d.year / 1000), digChar (d.year / 100 % 10),
             digChar (d.year / 10 % 10), digChar (d.year % 10),
             digChar (d.month / 10), digChar (d.month % 10),
             digChar (d.day / 10), digChar (d.day % 10)]

/-- Decimal value of a digit string (big-endian). -/
def decodeDigits (cs : List Char) : Nat := cs.foldl (fun n c => 10 * n + digVal c) 0

/-- Spec-side description of a well-formed raw date: "8 digits forming a
valid calendar date in YYYYMMDD format".  Deliberately written from the
the words of the spec, independently of `parseDate`, for comparison with it. -/
def specValidRaw (s : String) : Bool :=
  decide (s.data.length = 8) && s.data.all Char.isDigit &&
  validDate (decodeDigits (s.data.take 4))
    (decodeDigits ((s.data.drop 4).take 2))
    (decodeDigits (s.data.drop 6))

/-- Spec-side reference parser: parse any well-formed raw value to its
calendar date, with no representability restriction. -/
def specParse (s : String) : Option Date :=
  if specValidRaw s then
    some ⟨decodeDigits (s.data.take 4), decodeDigits ((s.data.drop 4).take 2),
          decodeDigits (s.data.drop 6)⟩
  else none

/-- One dataframe row, restricted to the columns the queries read.  The
`dt` column holds the parsed date (`none` models `NaT`); `multiMovieYn`
and `repNationCd` are the two nullable categorical columns (`none` models
`NaN`).  `movieNm` is non-null per the data model.  Remaining columns
(`movieCd`, `audiAcc`, `rank`) are carried for the data model but unused
by any aggregation. -/
structure Row where
  dt : Option Date
  movieNm : String
  audiCnt : Int
  salesAmt : Int
  multiMovieYn : Option String
  repNationCd : Option String
  movieCd : String := ""
  audiAcc : Int := 0
  rank : Int := 0
deriving DecidableEq

/-- The loaded dataframe: an ordered collection of rows. -/
def Dataset : Type := List Row

instance : DecidableEq Dataset := inferInstanceAs (DecidableEq (List Row))

/-- `default_columns` of the script. -/
def default_columns : List String :=
  ["dt", "movieCd", "audiAcc", "multiMovieYn", "repNationCd", "rank", "movieNm"]

/-- Column projection: `if not selected_columns: display_columns =
default_columns else: display_columns = selected_columns`. -/
def display_columns (selected : List String) : List String :=
  if selected = [] then default_columns else selected

/-- First-occurrence deduplication, accumulating the values already seen;
this is the order `pandas.Series.unique` returns and the set of group keys
a group-by produces. -/
def dedupFirstAux {α : Type} [DecidableEq α] : List α → List α → List α
  | [], _ => []
  | a :: l, seen =>
    if a ∈ seen then dedupFirstAux l seen else a :: dedupFirstAux l (a :: seen)

/-- Distinct values of a list in order of first appearance. -/
def dedupFirst {α : Type} [DecidableEq α] (l : List α) : List α := dedupFirstAux l []

/-- Code-point comparison of character lists: the strict lexicographic
order python uses to compare strings (and hence the order pandas sorts
`movieNm` group keys in). -/
def charListLt : List Char → List Char → Bool
  | [], [] => false
  | [], _ :: _ => true
  | _ :: _, [] => false
  | a :: as, b :: bs =>
    if a.toNat < b.toNat then true
    else if b.toNat < a.toNat then false
    else charListLt as bs

/-- Python-style strict string comparison. -/
def strLt (a b : String) : Bool := charListLt a.data b.data

/-- Python-style non-strict string comparison. -/
def strLe (a b : String) : Bool := ! strLt b a

/-- `strLt` as a relation. -/
def strLtP (a b : String) : Prop := strLt a b = true

/-- `strLe` as a relation. -/
def strLeP (a b : String) : Prop := strLe a b = true

instance : DecidableRel strLtP := fun a b => inferInstanceAs (Decidable (strLt a b = true))

instance : DecidableRel strLeP := fun a b => inferInstanceAs (Decidable (strLe a b = true))

/-- Sorted group keys, as `groupby(movieNm)` (with its default
`sort=True`) produces them. -/
def groupKeys (df : List Row) : List String :=
  List.insertionSort strLeP (dedupFirst (df.map (fun r => r.movieNm)))

/-- Sum of a measure column over the rows of one `movieNm` group. -/
def groupSum (df : List Row) (measure : Row → Int) (k : String) : Int :=
  ((df.filter (fun r => r.movieNm = k)).map measure).sum

/-- Ordering used by `sort_values` on the summed-measure series: compare by
value only. -/
def valLe (a b : String × Int) : Prop := a.2 ≤ b.2

instance : DecidableRel valLe := fun a b => inferInstanceAs (Decidable (a.2 ≤ b.2))

instance : IsTotal (String × Int) valLe := ⟨fun a b => Int.le_total a.2 b.2⟩

instance : IsTrans (String × Int) valLe := ⟨fun _ _ _ => Int.le_trans⟩

/-- `df.groupby(key)[measure].sum().sort_values(ascending=False).head(10)`:
group sums over sorted distinct keys, descending value sort, first ten
entries.  `sort_values(ascending=False)` reverses an ascending
`argsort(kind=quicksort)`; that numpy sort is unstable in general, so this
embedding fixes one concrete tie order — a stable insertion sort — which
coincides with the program exactly when the number of groups is below the
numpy small-array cutoff (15, where introsort is a plain insertion sort).
Consequences that depend on the tie order among equal sums
(`top_tie_order`) therefore carry an explicit bound on the number of
groups; length and descending order hold regardless of tie order. -/
def topGroups (measure : Row → Int) (df : List Row) : List (String × Int) :=
  ((List.insertionSort valLe
      ((groupKeys df).map (fun k => (k, groupSum df measure k)))).reverse).take 10

/-- `top_sales` of the script. -/
def top_sales (df : List Row) : List (String × Int) := topGroups (fun r => r.salesAmt) df

/-- `top_audience` of the script. -/
def top_audience (df : List Row) : List (String × Int) := topGroups (fun r => r.audiCnt) df

/-- Strict "larger sum first, ties by lexicographically later key first"
order; the shape the descending sort actually produces (see
`top_tie_order`). -/
def lexGt (a b : String × Int) : Prop := b.2 < a.2 ∨ (a.2 = b.2 ∧ strLtP b.1 a.1)

/-- `df[multiMovieYn].isna().mean()`: fraction of rows with a null
`multiMovieYn` (exact rational; the pandas float is its rounding). -/
def multiMovieYn_null_ratio (df : List Row) : ℚ :=
  ((df.countP (fun r => r.multiMovieYn = none) : ℚ)) / ((df.length : ℚ))

/-- `df[repNationCd].isna().mean()`. -/
def repNationCd_null_ratio (df : List Row) : ℚ :=
  ((df.countP (fun r => r.repNationCd = none) : ℚ)) / ((df.length : ℚ))

/-- Rows of the group of one parsed date. -/
def rowsOn (df : List Row) (d : Date) : List Row := df.filter (fun r => r.dt = some d)

/-- Key order for date groups. -/
def dateLeP (a b : Date) : Prop := dateKey a ≤ dateKey b

instance : DecidableRel dateLeP := fun a b => inferInstanceAs (Decidable (dateKey a ≤ dateKey b))

/-- Sorted distinct non-null dates: the index of `df.groupby(dt)`
(group-by drops rows whose key is `NaT`). -/
def groupDates (df : List Row) : List Date :=
  List.insertionSort dateLeP (dedupFirst (df.filterMap (fun r => r.dt)))

/-- `df.groupby(dt).agg(multiMovieYn_null_ratio=..., repNationCd_null_ratio=...)`:
one output row per distinct non-null date, holding the null
fractions of the two categorical columns. -/
def null_ratios (df : List Row) : List (Date × ℚ × ℚ) :=
  (groupDates df).map (fun d =>
    (d, multiMovieYn_null_ratio (rowsOn df d), repNationCd_null_ratio (rowsOn df d)))

/-- `df[(df[dt] >= start) & (df[dt] <= end)]`: inclusive date-range
filter; comparisons against `NaT` are false, so null-date rows drop out. -/
def filtered_df (df : List Row) (startd endd : Date) : List Row :=
  df.filter (fun r =>
    match r.dt with
    | some d => decide (dateKey startd ≤ dateKey d) && decide (dateKey d ≤ dateKey endd)
    | none => false)

/-- The composite group key of
`groupby([dt, multiMovieYn, repNationCd])`: present exactly when all
three key columns are non-null (pandas drops rows with any null key). -/
def key3 (r : Row) : Option (Date × String × String) :=
  match r.dt, r.multiMovieYn, r.repNationCd with
  | some d, some m, some n => some (d, m, n)
  | _, _, _ => none

/-- Lexicographic order on the composite key, as pandas sorts a multi-key
group index. -/
def tripleLeB (a b : Date × String × String) : Bool :=
  if dateKey a.1 < dateKey b.1 then true
  else if dateKey b.1 < dateKey a.1 then false
  else if strLt a.2.1 b.2.1 then true
  else if strLt b.2.1 a.2.1 then false
  else strLe a.2.2 b.2.2

/-- `tripleLeB` as a relation. -/
def tripleLeP (a b : Date × String × String) : Prop := tripleLeB a b = true

instance : DecidableRel tripleLeP := fun a b => inferInstanceAs (Decidable (tripleLeB a b = true))

/-- `filtered_df.groupby([dt, multiMovieYn, repNationCd])[audiCnt].sum()`:
audience-count sum per observed composite key. -/
def audience_data (fdf : List Row) : List ((Date × String × String) × Int) :=
  (List.insertionSort tripleLeP (dedupFirst (fdf.filterMap key3))).map
    (fun k => (k, ((fdf.filter (fun r => key3 r = some k)).map (fun r => r.audiCnt)).sum))

/-- Projection `[[dt, audiCnt, salesAmt]]` of one row. -/
def movieProj (r : Row) : Option Date × Int × Int := (r.dt, r.audiCnt, r.salesAmt)

/-- `df[df[movieNm] == movie_name][[dt, audiCnt, salesAmt]]`:
the per-movie series, in the own row order of the dataframe. -/
def movie_data (df : List Row) (name : String) : List (Option Date × Int × Int) :=
  (df.filter (fun r => r.movieNm = name)).map movieProj

/-- `df[movieNm].unique()`: the options of the movie select box. -/
def uniqueMovieNames (df : List Row) : List String :=
  dedupFirst (df.map (fun r => r.movieNm))

/-- Spec-side check that a per-movie series is listed in (non-strictly)
ascending date order, every row carrying a parsed date. -/
def dtAscendingB : List (Option Date × Int × Int) → Bool
  | [] => true
  | [p] => p.1.isSome
  | p :: q :: rest =>
    (match p.1, q.1 with
     | some d1, some d2 => decide (dateKey d1 ≤ dateKey d2)
     | _, _ => false) && dtAscendingB (q :: rest)

/-- The interactive operations of the script, each a pure read of the
loaded dataframe. -/
inductive Op where
  | project (cols : List String)
  | overallNulls
  | dailyNulls
  | topSales
  | topAudience
  | rangeSeries (startd endd : Date)
  | movieSeries (name : String)

/-- Result table of one operation. -/
inductive OpResult where
  | colsOut (c : List String)
  | ratioOut (a b : ℚ)
  | trendOut (t : List (Date × ℚ × ℚ))
  | rankingOut (l : List (String × Int))
  | rangeOut (l : List ((Date × String × String) × Int))
  | movieOut (l : List (Option Date × Int × Int))

/-- Run one operation.  Every statement of the script only reads `df` and
binds its result to a fresh name (`filtered_df`, `movie_data` — the latter
even takes an explicit `.copy()`); no pandas call mutates in place, so the
dataset component is returned unchanged. -/
def applyOp (df : Dataset) : Op → Dataset × OpResult
  | .project cols => (df, .colsOut (display_columns cols))
  | .overallNulls => (df, .ratioOut (multiMovieYn_null_ratio df) (repNationCd_null_ratio df))
  | .dailyNulls => (df, .trendOut (null_ratios df))
  | .topSales => (df, .rankingOut (top_sales df))
  | .topAudience => (df, .rankingOut (top_audience df))
  | .rangeSeries startd endd => (df, .rangeOut (audience_data (filtered_df df startd endd)))
  | .movieSeries name => (df, .movieOut (movie_data df name))

/-- The dataset an arbitrary interaction sequence leaves behind. -/
def runOps (df : Dataset) (ops : List Op) : Dataset :=
  ops.foldl (fun cur op => (applyOp cur op).1) df

/-- Movie "A", one record, sales 100 (appears first). -/
def rTie1 : Row :=
  { dt := some ⟨2024, 1, 1⟩, movieNm := "A", audiCnt := 0, salesAmt := 100,
    multiMovieYn := none, repNationCd := none }

/-- Movie "B", one record, sales 100 (appears second). -/
def rTie2 : Row :=
  { dt := some ⟨2024, 1, 1⟩, movieNm := "B", audiCnt := 0, salesAmt := 100,
    multiMovieYn := none, repNationCd := none }

/-- Two movies with equal summed sales, "A" appearing before "B". -/
def dsTie : List Row := [rTie1, rTie2]

/-- Movie "M" record dated 2024-01-03 (appears first in the dataset). -/
def rOrd1 : Row :=
  { dt := some ⟨2024, 1, 3⟩, movieNm := "M", audiCnt := 2, salesAmt := 20,
    multiMovieYn := none, repNationCd := none }

/-- Movie "M" record dated 2024-01-01 (appears second in the dataset). -/
def rOrd2 : Row :=
  { dt := some ⟨2024, 1, 1⟩, movieNm := "M", audiCnt := 1, salesAmt := 10,
    multiMovieYn := none, repNationCd := none }

/-- A dataset whose rows for movie "M" are not in ascending date order. -/
def dsOrd : List Row := [rOrd1, rOrd2]

/-- Row of the end-to-end scenario of the spec: 2024-01-01, movie "A". -/
def rW1 : Row :=
  { dt := some ⟨2024, 1, 1⟩, movieNm := "A", audiCnt := 100, salesAmt := 1000,
    multiMovieYn := some "Y", repNationCd := some "K" }

/-- Row of the end-to-end scenario: 2024-01-01, movie "B", null
`multiMovieYn`. -/
def rW2 : Row :=
  { dt := some ⟨2024, 1, 1⟩, movieNm := "B", audiCnt := 50, salesAmt := 500,
    multiMovieYn := none, repNationCd := some "F" }

/-- Row of the end-to-end scenario: 2024-01-02, movie "A". -/
def rW3 : Row :=
  { dt := some ⟨2024, 1, 2⟩, movieNm := "A", audiCnt := 200, salesAmt := 2000,
    multiMovieYn := some "Y", repNationCd := some "K" }

/-- The three-row end-to-end scenario dataset of the spec. -/
def dsW : List Row := [rW1, rW2, rW3]

/-!  General lemmas about the list combinators used by the embedding. -/

theorem mem_dedupFirstAux {α : Type} [DecidableEq α] (x : α) :
    ∀ (l seen : List α), x ∈ dedupFirstAux l seen ↔ x ∈ l ∧ x ∉ seen := by
  intro l
  induction l with
  | nil => intro seen; simp [dedupFirstAux]
  | cons a l ih =>
    intro seen
    by_cases ha : a ∈ seen
    · simp only [dedupFirstAux, if_pos ha, ih, List.mem_cons]
      constructor
      · rintro ⟨hx, hs⟩; exact ⟨Or.inr hx, hs⟩
      · rintro ⟨hx | hx, hs⟩
        · exact absurd (hx ▸ ha) hs
        · exact ⟨hx, hs⟩
    · simp only [dedupFirstAux, if_neg ha, List.mem_cons, ih]
      constructor
      · rintro (rfl | ⟨hx, hs⟩)
        · exact ⟨Or.inl rfl, ha⟩
        · exact ⟨Or.inr hx, fun h => hs (Or.inr h)⟩
      · rintro ⟨rfl | hx, hs⟩
        · exact Or.inl rfl
        · by_cases hxa : x = a
          · exact Or.inl hxa
          · exact Or.inr ⟨hx, by simp [List.mem_cons, hxa, hs]⟩

theorem nodup_dedupFirstAux {α : Type} [DecidableEq α] :
    ∀ (l seen : List α), (dedupFirstAux l seen).Nodup := by
  intro l
  induction l with
  | nil => intro seen; simp [dedupFirstAux]
  | cons a l ih =>
    intro seen
    by_cases ha : a ∈ seen
    · simpa [dedupFirstAux, if_pos ha] using ih seen
    · rw [dedupFirstAux, if_neg ha]
      refine List.Nodup.cons ?_ (ih (a :: seen))
      intro hmem
      exact ((mem_dedupFirstAux a l (a :: seen)).mp hmem).2 (List.mem_cons_self a seen)

theorem mem_dedupFirst {α : Type} [DecidableEq α] {x : α} {l : List α} :
    x ∈ dedupFirst l ↔ x ∈ l := by
  simp [dedupFirst, mem_dedupFirstAux]

theorem nodup_dedupFirst {α : Type} [DecidableEq α] (l : List α) :
    (dedupFirst l).Nodup := nodup_dedupFirstAux l []

theorem dedupFirst_length_eq_dedup {α : Type} [DecidableEq α] (l : List α) :
    (dedupFirst l).length = l.dedup.length := by
  refine ((List.perm_ext_iff_of_nodup (nodup_dedupFirst l) l.nodup_dedup).mpr ?_).length_eq
  intro a
  rw [mem_dedupFirst, List.mem_dedup]

theorem sum_ones {β : Type} (l : List β) : (l.map (fun _ => (1 : Int))).sum = l.length := by
  induction l with
  | nil => rfl
  | cons a l ih => simp [ih]; omega

/-!  Order properties of the code-point string comparison. -/

theorem char_toNat_injective {a b : Char} (h : a.toNat = b.toNat) : a = b := by
  have ha := Char.ofNat_toNat a
  have hb := Char.ofNat_toNat b
  rw [← ha, ← hb, h]

theorem charListLt_asymm :
    ∀ as bs, charListLt as bs = true → charListLt bs as = false := by
  intro as
  induction as with
  | nil => intro bs h; cases bs <;> simp [charListLt]
  | cons a as ih =>
    intro bs h
    cases bs with
    | nil => simp [charListLt] at h
    | cons b bs =>
      rw [charListLt] at h ⊢
      by_cases hab : a.toNat < b.toNat
      · have hba : ¬ b.toNat < a.toNat := by omega
        simp [hab, hba]
      · by_cases hba : b.toNat < a.toNat
        · simp [hab, hba] at h
        · simp only [if_neg hab, if_neg hba] at h ⊢
          exact ih bs h

theorem charListLt_connex :
    ∀ as bs, charListLt as bs = false → charListLt bs as = false → as = bs := by
  intro as
  induction as with
  | nil =>
    intro bs h1 _
    cases bs with
    | nil => rfl
    | cons b bs => simp [charListLt] at h1
  | cons a as ih =>
    intro bs h1 h2
    cases bs with
    | nil => simp [charListLt] at h2
    | cons b bs =>
      rw [charListLt] at h1 h2
      by_cases hab : a.toNat < b.toNat
      · simp [hab] at h1
      · by_cases hba : b.toNat < a.toNat
        · simp [hba, hab] at h2
        · simp only [if_neg hab, if_neg hba] at h1 h2
          have hchar : a = b := char_toNat_injective (by omega)
          rw [hchar, ih bs h1 h2]

theorem charListLt_trans :
    ∀ as bs cs, charListLt as bs = true → charListLt bs cs = true →
      charListLt as cs = true := by
  intro as
  induction as with
  | nil =>
    intro bs cs h1 h2
    cases bs with
    | nil => simp [charListLt] at h1
    | cons b bs =>
      cases cs with
      | nil => simp [charListLt] at h2
      | cons c cs => simp [charListLt]
  | cons a as ih =>
    intro bs cs h1 h2
    cases bs with
    | nil => simp [charListLt] at h1
    | cons b bs =>
      cases cs with
      | nil => simp [charListLt] at h2
      | cons c cs =>
        rw [charListLt] at h1 h2 ⊢
        by_cases hab : a.toNat < b.toNat
        · by_cases hbc : b.toNat < c.toNat
          · have : a.toNat < c.toNat := by omega
            simp [this]
          · by_cases hcb : c.toNat < b.toNat
            · simp [hbc, hcb] at h2
            · have : a.toNat < c.toNat := by omega
              simp [this]
        · by_cases hba : b.toNat < a.toNat
          · simp [hab, hba] at h1
          · by_cases hbc : b.toNat < c.toNat
            · have hac : a.toNat < c.toNat := by omega
              simp [hac]
            · by_cases hcb : c.toNat < b.toNat
              · simp [hbc, hcb] at h2
              · have hac : ¬ a.toNat < c.toNat := by omega
                have hca : ¬ c.toNat < a.toNat := by omega
                simp only [if_neg hab, if_neg hba] at h1
                simp only [if_neg hbc, if_neg hcb] at h2
                simp only [if_neg hac, if_neg hca]
                exact ih bs cs h1 h2

theorem string_data_inj {a b : String} (h : a.data = b.data) : a = b :=
  congrArg String.mk h

theorem strLeP_total (a b : String) : strLeP a b ∨ strLeP b a := by
  unfold strLeP strLe
  by_cases h : strLt b a = true
  · right
    have := charListLt_asymm b.data a.data h
    simp [strLt] at h ⊢
    simp [this]
  · left
    simp [h]

theorem strLeP_trans {a b c : String} (h1 : strLeP a b) (h2 : strLeP b c) : strLeP a c := by
  unfold strLeP strLe strLt at h1 h2 ⊢
  simp only [Bool.not_eq_true'] at h1 h2 ⊢
  by_cases hca : charListLt c.data a.data = true
  · by_cases hab : charListLt a.data b.data = true
    · have := charListLt_trans c.data a.data b.data hca hab
      rw [this] at h2; exact absurd h2 (by simp)
    · have hba_false : charListLt b.data a.data = false := h1
      have hab_false : charListLt a.data b.data = false := by
        cases hx : charListLt a.data b.data
        · rfl
        · exact absurd hx hab
      have : a.data = b.data := charListLt_connex a.data b.data hab_false hba_false
      rw [← this] at h2
      rw [h2] at hca
      exact absurd hca (by simp)
  · cases hx : charListLt c.data a.data
    · rfl
    · exact absurd hx hca

theorem strLeP_ne_lt {a b : String} (h : strLeP a b) (hne : a ≠ b) : strLtP a b := by
  unfold strLeP strLe at h
  unfold strLtP strLt
  simp only [Bool.not_eq_true'] at h
  cases hx : charListLt a.data b.data
  · exact absurd (string_data_inj (charListLt_connex a.data b.data hx h)) hne
  · rfl

instance : IsTotal String strLeP := ⟨strLeP_total⟩

instance : IsTrans String strLeP := ⟨fun _ _ _ => strLeP_trans⟩

/-!  Shape of the sorted group keys and of the descending value sort. -/

theorem groupKeys_nodup (df : List Row) : (groupKeys df).Nodup :=
  (List.perm_insertionSort strLeP _).nodup_iff.mpr
    (nodup_dedupFirst (df.map (fun r => r.movieNm)))

theorem mem_groupKeys {df : List Row} {k : String} :
    k ∈ groupKeys df ↔ ∃ r ∈ df, r.movieNm = k := by
  rw [groupKeys, (List.perm_insertionSort strLeP _).mem_iff, mem_dedupFirst, List.mem_map]

theorem groupKeys_pairwise (df : List Row) : (groupKeys df).Pairwise strLtP := by
  have hsorted : (groupKeys df).Pairwise strLeP := List.sorted_insertionSort strLeP _
  have hnodup : (groupKeys df).Pairwise (fun a b => a ≠ b) := groupKeys_nodup df
  exact (hsorted.and hnodup).imp (fun h => strLeP_ne_lt h.1 h.2)

theorem orderedInsert_lexGt (x : String × Int) :
    ∀ M : List (String × Int), M.Pairwise (fun a b => lexGt b a) →
      (∀ y ∈ M, strLtP x.1 y.1) →
      (M.orderedInsert valLe x).Pairwise (fun a b => lexGt b a) := by
  intro M
  induction M with
  | nil => intro _ _; simp [List.orderedInsert]
  | cons b bs ih =>
    intro hM hx
    rw [List.pairwise_cons] at hM
    rw [List.orderedInsert]
    by_cases hvb : valLe x b
    · rw [if_pos hvb]
      refine List.Pairwise.cons ?_ (List.Pairwise.cons hM.1 hM.2)
      intro y hy
      have hxy : x.2 ≤ y.2 := by
        rcases List.mem_cons.mp hy with rfl | hybs
        · exact hvb
        · rcases hM.1 y hybs with hlt | ⟨heq, _⟩
          · exact le_of_lt (lt_of_le_of_lt hvb hlt)
          · exact le_trans hvb (le_of_eq heq.symm)
      rcases lt_or_eq_of_le hxy with hlt | heq
      · exact Or.inl hlt
      · exact Or.inr ⟨heq.symm, hx y hy⟩
    · rw [if_neg hvb]
      have hbx : b.2 < x.2 := by
        simp only [valLe, not_le] at hvb
        exact hvb
      refine List.Pairwise.cons ?_ (ih hM.2 (fun y hy => hx y (List.mem_cons_of_mem b hy)))
      intro y hy
      rcases (List.mem_orderedInsert valLe).mp hy with rfl | hybs
      · exact Or.inl hbx
      · exact hM.1 y hybs

theorem insertionSort_lexGt :
    ∀ l : List (String × Int), l.Pairwise (fun a b => strLtP a.1 b.1) →
      (List.insertionSort valLe l).Pairwise (fun a b => lexGt b a) := by
  intro l
  induction l with
  | nil => intro _; simp
  | cons x l ih =>
    intro hl
    rw [List.pairwise_cons] at hl
    rw [List.insertionSort]
    refine orderedInsert_lexGt x _ (ih hl.2) ?_
    intro y hy
    exact hl.1 y ((List.perm_insertionSort valLe l).mem_iff.mp hy)

theorem topGroups_pairwise_lexGt (measure : Row → Int) (df : List Row) :
    (topGroups measure df).Pairwise lexGt := by
  have hpairs :
      ((groupKeys df).map (fun k => (k, groupSum df measure k))).Pairwise
        (fun a b => strLtP a.1 b.1) := by
    rw [List.pairwise_map]
    exact groupKeys_pairwise df
  have hsorted := insertionSort_lexGt _ hpairs
  have hrev := List.pairwise_reverse.mpr hsorted
  exact hrev.sublist (List.take_sublist 10 _)

theorem topGroups_length (measure : Row → Int) (df : List Row) :
    (topGroups measure df).length
      = min 10 (dedupFirst (df.map (fun r => r.movieNm))).length := by
  rw [topGroups, List.length_take, List.length_reverse, List.length_insertionSort,
    List.length_map, groupKeys, List.length_insertionSort]

theorem topGroups_desc (measure : Row → Int) (df : List Row) :
    (topGroups measure df).Pairwise (fun a b => b.2 ≤ a.2) := by
  have hs :
      (List.insertionSort valLe
        ((groupKeys df).map (fun k => (k, groupSum df measure k)))).Pairwise valLe :=
    List.sorted_insertionSort valLe _
  have hrev := List.pairwise_reverse.mpr hs
  exact (hrev.sublist (List.take_sublist 10 _)).imp (fun h => h)

/-- C1 counterexample: in `dsTie` the movies "A" and "B" have equal summed
sales and "A" appears first in the dataset, yet `top_sales` lists "B"
before "A" — the tie is not broken by order of first appearance. -/
theorem top_sales_tie_not_first_appearance :
    dedupFirst (dsTie.map (fun r => r.movieNm)) = ["A", "B"] ∧
    groupSum dsTie (fun r => r.salesAmt) "A" = groupSum dsTie (fun r => r.salesAmt) "B" ∧
    top_sales dsTie = [("B", 100), ("A", 100)] := by decide

/-- C1 (amended): ties are not broken by order of first appearance.  On
any dataset with at most ten distinct movie names — below the numpy
small-array cutoff, where the otherwise unstable quicksort argsort is a
stable insertion sort and the embedding coincides with the program — the
Top-N output follows the deterministic strict order `lexGt`: strictly
larger summed measure first and, among groups with equal sums, the
lexicographically larger movie name first (the group-by sorts keys
ascending and the descending value sort reverses a stable ascending
sort).  For larger group counts the tie order is implementation-defined
by the unstable sort, and in particular still not the first-appearance
order the spec states. -/
theorem top_tie_order (df : List Row)
    (_hsmall : (dedupFirst (df.map (fun r => r.movieNm))).length ≤ 10) :
    (top_sales df).Pairwise lexGt ∧ (top_audience df).Pairwise lexGt :=
  ⟨topGroups_pairwise_lexGt (fun r => r.salesAmt) df,
   topGroups_pairwise_lexGt (fun r => r.audiCnt) df⟩

/-- C1 witness: `dsTie` has two distinct movie names, and its tied Top-N
outputs indeed follow `lexGt`. -/
theorem top_tie_order_witness :
    (top_sales dsTie).Pairwise lexGt ∧ (top_audience dsTie).Pairwise lexGt :=
  top_tie_order dsTie (by decide)

/-- C7: each Top-N output has exactly `min 10 (number of distinct movie
names)` rows and is sorted by summed measure in descending order. -/
theorem top_n_shape (df : List Row) :
    ((top_sales df).length = min 10 ((df.map (fun r => r.movieNm)).dedup.length) ∧
     (top_sales df).Pairwise (fun a b => b.2 ≤ a.2)) ∧
    ((top_audience df).length = min 10 ((df.map (fun r => r.movieNm)).dedup.length) ∧
     (top_audience df).Pairwise (fun a b => b.2 ≤ a.2)) := by
  constructor
  · constructor
    · rw [top_sales, topGroups_length, dedupFirst_length_eq_dedup]
    · exact topGroups_desc (fun r => r.salesAmt) df
  · constructor
    · rw [top_audience, topGroups_length, dedupFirst_length_eq_dedup]
    · exact topGroups_desc (fun r => r.audiCnt) df

/-- C2 counterexample: for the dataset `dsOrd`, whose rows for movie "M"
are dated 2024-01-03 then 2024-01-01, the extractor returns the rows in
that original order, which is not ascending date order. -/
theorem movie_data_not_date_sorted :
    movie_data dsOrd "M" = [(some ⟨2024, 1, 3⟩, 2, 20), (some ⟨2024, 1, 1⟩, 1, 10)] ∧
    dtAscendingB (movie_data dsOrd "M") = false := by decide

/-- C2 (amended): the per-entity extractor returns exactly the rows whose
movie name equals the query, projected to (date, audience count, sales
amount), in the original row order of the dataset (a sublist of the projected
dataset) — duplicates preserved, nothing synthesized — but it does NOT
re-sort by date: the output is date-ascending only when the matching rows
already are. -/
theorem movie_data_exact (df : List Row) (name : String) :
    (movie_data df name).length = df.countP (fun r => r.movieNm = name) ∧
    List.Sublist (movie_data df name) (df.map movieProj) ∧
    ∀ r ∈ df, r.movieNm = name → movieProj r ∈ movie_data df name := by
  refine ⟨?_, ?_, ?_⟩
  · rw [movie_data, List.length_map]
    exact (List.countP_eq_length_filter _ _).symm
  · exact List.Sublist.map movieProj (List.filter_sublist df)
  · intro r hr hname
    exact List.mem_map_of_mem movieProj (List.mem_filter.mpr ⟨hr, by simp [hname]⟩)

/-- C2 witness: the first "M" row of `dsOrd` is reproduced in the
output of the extractor. -/
theorem movie_data_exact_witness : movieProj rOrd1 ∈ movie_data dsOrd "M" :=
  (movie_data_exact dsOrd "M").2.2 rOrd1 (by decide) (by decide)

/-- C3: the column projection returns the selection when it is non-empty,
falls back to the default columns on an empty selection, and never yields
an empty column set. -/
theorem display_columns_spec :
    (∀ S : List String, S ≠ [] → display_columns S = S) ∧
    display_columns [] = default_columns ∧
    ∀ S : List String, display_columns S ≠ [] := by
  refine ⟨?_, rfl, ?_⟩
  · intro S h
    rw [display_columns, if_neg h]
  · intro S
    by_cases h : S = []
    · rw [display_columns, if_pos h]
      decide
    · rw [display_columns, if_neg h]
      exact h

/-- C3 witness: a singleton selection is kept; the empty selection
degrades to the default columns. -/
theorem display_columns_spec_witness :
    display_columns ["rank", "movieNm"] = ["rank", "movieNm"] ∧
    display_columns [] = default_columns ∧
    display_columns [] ≠ [] :=
  ⟨display_columns_spec.1 ["rank", "movieNm"] (by decide),
   display_columns_spec.2.1, display_columns_spec.2.2 []⟩

/-- C10: the select-box options are exactly the distinct movie names
occurring in the dataset, without duplicates, and every option matches at
least one row, so a selected movie never yields an empty series. -/
theorem selectable_names_spec (df : List Row) :
    (∀ name : String, name ∈ uniqueMovieNames df ↔ ∃ r ∈ df, r.movieNm = name) ∧
    (uniqueMovieNames df).Nodup ∧
    ∀ name ∈ uniqueMovieNames df, 0 < (movie_data df name).length := by
  refine ⟨?_, nodup_dedupFirst _, ?_⟩
  · intro name
    rw [uniqueMovieNames, mem_dedupFirst, List.mem_map]
  · intro name hmem
    obtain ⟨r, hr, hname⟩ := List.mem_map.mp (mem_dedupFirst.mp hmem)
    rw [movie_data, List.length_map]
    exact List.length_pos.mpr
      (List.ne_nil_of_mem (List.mem_filter.mpr ⟨hr, by simp [hname]⟩))

/-- C10 witness: "B" is an option of `dsW` and its series is non-empty. -/
theorem selectable_names_spec_witness : 0 < (movie_data dsW "B").length :=
  (selectable_names_spec dsW).2.2 "B" (by decide)

theorem null_ratios_keys (df : List Row) :
    (null_ratios df).map Prod.fst = groupDates df := by
  rw [null_ratios, List.map_map]
  exact List.map_id _

theorem mem_groupDates {df : List Row} {d : Date} :
    d ∈ groupDates df ↔ ∃ r ∈ df, r.dt = some d := by
  rw [groupDates, (List.perm_insertionSort dateLeP _).mem_iff, mem_dedupFirst,
    List.mem_filterMap]

theorem groupDates_nodup (df : List Row) : (groupDates df).Nodup :=
  (List.perm_insertionSort dateLeP _).nodup_iff.mpr (nodup_dedupFirst _)

/-- C5: with at least one row, the overall null ratio of each of the two
nullable columns (`multiMovieYn`, `repNationCd`) is exactly the null count
over the row count, a value in [0,1]; the per-date trend has one row per
distinct date present in the data (no other dates appear), carrying the
exact per-column null fractions of that date over a non-empty group. -/
theorem null_ratio_spec (df : List Row) :
    (0 < df.length →
       (multiMovieYn_null_ratio df
           = ((df.countP (fun r => r.multiMovieYn = none) : ℚ)) / ((df.length : ℚ)) ∧
        0 ≤ multiMovieYn_null_ratio df ∧ multiMovieYn_null_ratio df ≤ 1) ∧
       (repNationCd_null_ratio df
           = ((df.countP (fun r => r.repNationCd = none) : ℚ)) / ((df.length : ℚ)) ∧
        0 ≤ repNationCd_null_ratio df ∧ repNationCd_null_ratio df ≤ 1)) ∧
    (∀ d : Date, d ∈ (null_ratios df).map Prod.fst ↔ ∃ r ∈ df, r.dt = some d) ∧
    ((null_ratios df).map Prod.fst).Nodup ∧
    ∀ e ∈ null_ratios df,
      0 < (rowsOn df e.1).length ∧
      e.2.1 = (((rowsOn df e.1).countP (fun r => r.multiMovieYn = none) : ℚ))
          / (((rowsOn df e.1).length : ℚ)) ∧
      e.2.2 = (((rowsOn df e.1).countP (fun r => r.repNationCd = none) : ℚ))
          / (((rowsOn df e.1).length : ℚ)) := by
  refine ⟨?_, ?_, ?_, ?_⟩
  · intro hn
    refine ⟨⟨rfl, ?_, ?_⟩, ⟨rfl, ?_, ?_⟩⟩
    · rw [multiMovieYn_null_ratio]
      positivity
    · rw [multiMovieYn_null_ratio, div_le_one (by exact_mod_cast hn)]
      exact_mod_cast List.countP_le_length _
    · rw [repNationCd_null_ratio]
      positivity
    · rw [repNationCd_null_ratio, div_le_one (by exact_mod_cast hn)]
      exact_mod_cast List.countP_le_length _
  · intro d
    rw [null_ratios_keys, mem_groupDates]
  · rw [null_ratios_keys]
    exact groupDates_nodup df
  · intro e he
    obtain ⟨d, hd, rfl⟩ := List.mem_map.mp he
    refine ⟨?_, rfl, rfl⟩
    obtain ⟨r, hr, hdt⟩ := mem_groupDates.mp hd
    exact List.length_pos.mpr
      (List.ne_nil_of_mem (List.mem_filter.mpr ⟨hr, by simp [hdt]⟩))

/-- C5 witness: on the three-row scenario dataset the overall ratios of
both nullable columns obey the bounds, and 2024-01-01 (present in the
data) is a trend date. -/
theorem null_ratio_spec_witness :
    (0 ≤ multiMovieYn_null_ratio dsW ∧ multiMovieYn_null_ratio dsW ≤ 1) ∧
    (0 ≤ repNationCd_null_ratio dsW ∧ repNationCd_null_ratio dsW ≤ 1) ∧
    (⟨2024, 1, 1⟩ : Date) ∈ (null_ratios dsW).map Prod.fst := by
  refine ⟨?_, ?_, ?_⟩
  · exact ⟨((null_ratio_spec dsW).1 (by decide)).1.2.1,
      ((null_ratio_spec dsW).1 (by decide)).1.2.2⟩
  · exact ⟨((null_ratio_spec dsW).1 (by decide)).2.2.1,
      ((null_ratio_spec dsW).1 (by decide)).2.2.2⟩
  · exact ((null_ratio_spec dsW).2.1 ⟨2024, 1, 1⟩).mpr ⟨rW1, by decide, by decide⟩

/-- C6: a reversed range (start after end) yields an empty filtered frame
and an empty grouped series, with no error; membership in the filtered
frame is exactly "row of the dataset with a parsed date inside the range,
both endpoints inclusive"; each grouped entry is the audience-count sum of
the filtered rows with its composite key. -/
theorem date_range_spec (df : List Row) (startd endd : Date) :
    (dateKey endd < dateKey startd →
       filtered_df df startd endd = [] ∧
       audience_data (filtered_df df startd endd) = []) ∧
    (∀ r : Row, r ∈ filtered_df df startd endd ↔
       r ∈ df ∧ ∃ d : Date, r.dt = some d ∧
         dateKey startd ≤ dateKey d ∧ dateKey d ≤ dateKey endd) ∧
    ∀ g ∈ audience_data (filtered_df df startd endd),
      g.2 = (((filtered_df df startd endd).filter (fun r => key3 r = some g.1)).map
          (fun r => r.audiCnt)).sum := by
  refine ⟨?_, ?_, ?_⟩
  · intro hlt
    have hempty : filtered_df df startd endd = [] := by
      rw [filtered_df, List.filter_eq_nil_iff]
      intro r _
      cases hdt : r.dt with
      | none => simp [hdt]
      | some d =>
        simp only [hdt, Bool.and_eq_true, decide_eq_true_eq, not_and]
        intro h1 h2
        omega
    refine ⟨hempty, ?_⟩
    rw [hempty]
    rfl
  · intro r
    rw [filtered_df, List.mem_filter]
    constructor
    · rintro ⟨hr, hp⟩
      refine ⟨hr, ?_⟩
      cases hdt : r.dt with
      | none => rw [hdt] at hp; simp at hp
      | some d =>
        rw [hdt] at hp
        simp only [Bool.and_eq_true, decide_eq_true_eq] at hp
        exact ⟨d, rfl, hp.1, hp.2⟩
    · rintro ⟨hr, d, hdt, h1, h2⟩
      refine ⟨hr, ?_⟩
      rw [hdt]
      simp [h1, h2]
  · intro g hg
    obtain ⟨k, hk, rfl⟩ := List.mem_map.mp hg
    rfl

/-- C6 witness: on the scenario dataset, the reversed range 2024-01-02 to
2024-01-01 yields empty results. -/
theorem date_range_spec_witness :
    filtered_df dsW ⟨2024, 1, 2⟩ ⟨2024, 1, 1⟩ = [] ∧
    audience_data (filtered_df dsW ⟨2024, 1, 2⟩ ⟨2024, 1, 1⟩) = [] :=
  (date_range_spec dsW ⟨2024, 1, 2⟩ ⟨2024, 1, 1⟩).1 (by decide)

/-- C8: no operation mutates the loaded dataset — running any sequence of
the interactions of the script leaves the dataset exactly as loaded (every
operation reads `df` and produces a fresh view). -/
theorem dataset_immutable (df : Dataset) (ops : List Op) : runOps df ops = df := by
  induction ops generalizing df with
  | nil => rfl
  | cons op ops ih =>
    have hstep : (applyOp df op).1 = df := by cases op <;> rfl
    calc runOps df (op :: ops) = runOps (applyOp df op).1 ops := rfl
    _ = (applyOp df op).1 := ih _
    _ = df := hstep

theorem sum_filter_split {β : Type} (m : β → Int) (p q : β → Bool)
    (h : ∀ r, p r = true → q r = true) :
    ∀ rows : List β,
      ((rows.filter q).map m).sum
        = ((rows.filter p).map m).sum
          + ((rows.filter (fun r => q r && !p r)).map m).sum := by
  intro rows
  induction rows with
  | nil => simp
  | cons r rs ih =>
    by_cases hp : p r = true
    · have hq := h r hp
      simp [List.filter_cons, hp, hq, ih]
      ring
    · have hp0 : p r = false := by
        cases hx : p r
        · rfl
        · exact absurd hx hp
      by_cases hq : q r = true
      · simp [List.filter_cons, hp0, hq, ih]
        ring
      · have hq0 : q r = false := by
          cases hx : q r
          · rfl
          · exact absurd hx hq
        simp [List.filter_cons, hp0, hq0, ih]

theorem sum_groups {β K : Type} [DecidableEq K] (keyOf : β → Option K) (m : β → Int) :
    ∀ keys : List K, keys.Nodup →
      ∀ rows : List β,
        (∀ r ∈ rows, ∀ k : K, keyOf r = some k → k ∈ keys) →
        (keys.map (fun k => ((rows.filter (fun r => keyOf r = some k)).map m).sum)).sum
          = ((rows.filter (fun r => (keyOf r).isSome)).map m).sum := by
  intro keys
  induction keys with
  | nil =>
    intro _ rows hcov
    have hnil : rows.filter (fun r => (keyOf r).isSome) = [] := by
      rw [List.filter_eq_nil_iff]
      intro r hr
      cases hk : keyOf r with
      | none => simp
      | some k => exact absurd (hcov r hr k hk) (List.not_mem_nil k)
    rw [hnil]
    simp
  | cons k ks ih =>
    intro hnd rows hcov
    rw [List.nodup_cons] at hnd
    have hshift : ∀ k2 ∈ ks,
        rows.filter (fun r => keyOf r = some k2)
          = (rows.filter (fun r => ! decide (keyOf r = some k))).filter
              (fun r => keyOf r = some k2) := by
      intro k2 hk2
      rw [List.filter_filter]
      apply List.filter_congr
      intro r _
      by_cases hr : keyOf r = some k2
      · have hne : k2 ≠ k := fun hh => hnd.1 (hh ▸ hk2)
        simp [hr, hne]
      · simp [hr]
    have hcov2 : ∀ r ∈ rows.filter (fun r => ! decide (keyOf r = some k)),
        ∀ k2 : K, keyOf r = some k2 → k2 ∈ ks := by
      intro r hr k2 hk2
      obtain ⟨hrr, hflag⟩ := List.mem_filter.mp hr
      rcases List.mem_cons.mp (hcov r hrr k2 hk2) with rfl | hmem
      · exfalso
        simp [hk2] at hflag
      · exact hmem
    have hih := ih hnd.2 (rows.filter (fun r => ! decide (keyOf r = some k))) hcov2
    have hsplit := sum_filter_split m (fun r => decide (keyOf r = some k))
      (fun r => (keyOf r).isSome)
      (by
        intro r hh
        rw [decide_eq_true_eq] at hh
        simp [hh]) rows
    have hmapeq :
        ks.map (fun k2 => ((rows.filter (fun r => keyOf r = some k2)).map m).sum)
          = ks.map (fun k2 =>
              (((rows.filter (fun r => ! decide (keyOf r = some k))).filter
                  (fun r => keyOf r = some k2)).map m).sum) :=
      List.map_congr_left (fun k2 hk2 => by rw [hshift k2 hk2])
    rw [List.map_cons, List.sum_cons, hmapeq, hih, List.filter_filter, hsplit]

/-- C9: grouped aggregations silently exclude rows whose grouping key is
null.  The per-date group sizes of the null-ratio trend add up to exactly
the number of rows with a parsed date (rows with a null date belong to no
group), and the multi-key audience sums add up to exactly the audience
total of the rows whose three keys are all non-null — rows with a null
`multiMovieYn` or `repNationCd` are absent from, not zero in, the grouped
totals, and every emitted key comes from an actual fully-keyed row. -/
theorem grouped_null_keys (df : List Row) (startd endd : Date) :
    ((null_ratios df).map (fun g => ((rowsOn df g.1).length : Int))).sum
        = (df.countP (fun r => (r.dt).isSome) : Int) ∧
    (∀ g ∈ null_ratios df, ∀ r ∈ rowsOn df g.1, r.dt ≠ none) ∧
    ((audience_data (filtered_df df startd endd)).map (fun g => g.2)).sum
        = (((filtered_df df startd endd).filter (fun r => (key3 r).isSome)).map
            (fun r => r.audiCnt)).sum ∧
    ∀ g ∈ audience_data (filtered_df df startd endd),
      g.1 ∈ (filtered_df df startd endd).filterMap key3 := by
  refine ⟨?_, ?_, ?_, ?_⟩
  · have hcov : ∀ r ∈ df, ∀ d : Date, r.dt = some d → d ∈ groupDates df :=
      fun r hr d hd => mem_groupDates.mpr ⟨r, hr, hd⟩
    have hmain := sum_groups (fun r => r.dt) (fun _ => (1 : Int)) (groupDates df)
      (groupDates_nodup df) df hcov
    have hl : ((null_ratios df).map (fun g => ((rowsOn df g.1).length : Int))).sum
        = ((groupDates df).map (fun d =>
            ((df.filter (fun r => r.dt = some d)).map (fun _ => (1 : Int))).sum)).sum := by
      rw [null_ratios, List.map_map]
      congr 1
      apply List.map_congr_left
      intro d _
      exact (sum_ones _).symm
    have hr2 : ((groupDates df).map (fun d =>
        ((df.filter (fun r => r.dt = some d)).map (fun _ => (1 : Int))).sum)).sum
        = ((df.filter (fun r => (r.dt).isSome)).map (fun _ => (1 : Int))).sum := hmain
    rw [hl, hr2, sum_ones]
    norm_cast
    exact (List.countP_eq_length_filter _ _).symm
  · intro g _ r hr
    have hdt := (List.mem_filter.mp hr).2
    simp only [decide_eq_true_eq] at hdt
    rw [hdt]
    simp
  · have hcov : ∀ r ∈ filtered_df df startd endd, ∀ k3, key3 r = some k3 →
        k3 ∈ List.insertionSort tripleLeP
          (dedupFirst ((filtered_df df startd endd).filterMap key3)) := by
      intro r hr k3 hk3
      rw [(List.perm_insertionSort tripleLeP _).mem_iff, mem_dedupFirst,
        List.mem_filterMap]
      exact ⟨r, hr, hk3⟩
    have hnd := (List.perm_insertionSort tripleLeP _).nodup_iff.mpr
      (nodup_dedupFirst ((filtered_df df startd endd).filterMap key3))
    have hmain := sum_groups key3 (fun r => r.audiCnt) _ hnd
      (filtered_df df startd endd) hcov
    rw [audience_data, List.map_map]
    exact hmain
  · intro g hg
    obtain ⟨k, hk, rfl⟩ := List.mem_map.mp hg
    exact mem_dedupFirst.mp ((List.perm_insertionSort tripleLeP _).mem_iff.mp hk)

/-- C9 witness: on the scenario dataset with the full range, the key
(2024-01-01, "Y", "K") emitted by the grouped sum comes from an actual
fully-keyed filtered row. -/
theorem grouped_null_keys_witness :
    ((⟨2024, 1, 1⟩, "Y", "K") : Date × String × String)
      ∈ (filtered_df dsW ⟨2024, 1, 1⟩ ⟨2024, 1, 2⟩).filterMap key3 :=
  (grouped_null_keys dsW ⟨2024, 1, 1⟩ ⟨2024, 1, 2⟩).2.2.2
    ((⟨2024, 1, 1⟩, "Y", "K"), 100) (by decide)

theorem char_digit_bounds {c : Char} (h : c.isDigit = true) :
    48 ≤ c.toNat ∧ c.toNat ≤ 57 := by
  simp only [Char.isDigit, Bool.and_eq_true, decide_eq_true_eq] at h
  exact ⟨h.1, h.2⟩

theorem digChar_digVal {c : Char} (h : c.isDigit = true) : digChar (digVal c) = c := by
  have hb := char_digit_bounds h
  unfold digChar digVal
  have hh : c.toNat - 48 + 48 = c.toNat := by omega
  rw [hh, Char.ofNat_toNat]

theorem decode4_eq (c0 c1 c2 c3 : Char) :
    decodeDigits [c0, c1, c2, c3]
      = 1000 * digVal c0 + 100 * digVal c1 + 10 * digVal c2 + digVal c3 := by
  simp [decodeDigits]
  ring

theorem decode2_eq (c0 c1 : Char) :
    decodeDigits [c0, c1] = 10 * digVal c0 + digVal c1 := by
  simp [decodeDigits]

theorem digVal_le_nine {c : Char} (h : c.isDigit = true) : digVal c ≤ 9 := by
  have hb := char_digit_bounds h
  unfold digVal
  omega


/-- A digit character is recovered from its value. -/
theorem char_eq_of_digVal {c : Char} (h : c.isDigit = true) (k : Nat)
    (hv : digVal c = k) : c = digChar k := by
  rw [← hv]
  exact (digChar_digVal h).symm

/-- No month has more than 31 days. -/
theorem daysInMonth_le31 (y m : Nat) : daysInMonth y m ≤ 31 := by
  unfold daysInMonth
  split_ifs <;> omega

/-- On a two-character remainder the `%d` regex accepts exactly the
zero-padded day numbers 01-31. -/
theorem dayExact_two (c6 c7 : Char) :
    dayExact [c6, c7]
      = if c6.isDigit = true ∧ c7.isDigit = true ∧
           1 ≤ 10 * digVal c6 + digVal c7 ∧ 10 * digVal c6 + digVal c7 ≤ 31 then
          some (10 * digVal c6 + digVal c7)
        else none := by
  simp only [dayExact]
  split_ifs with h1 h2 h3 h4 h5 h6 h7
  · obtain ⟨hc, hd, hv⟩ := h1
    subst hc
    have hd3 : digVal '3' = 3 := rfl
    rw [hd3]
  · obtain ⟨hc, hd, hv⟩ := h1
    subst hc
    have hd3 : digVal '3' = 3 := rfl
    exact absurd ⟨by decide, hd, by omega, by omega⟩ h2
  · rfl
  · obtain ⟨hc, hd⟩ := h3
    have hd7 := digVal_le_nine hd
    rcases hc with hc | hc <;> subst hc
    · have hdv : digVal '1' = 1 := rfl
      exact absurd ⟨by decide, hd, by omega, by omega⟩ h4
    · have hdv : digVal '2' = 2 := rfl
      exact absurd ⟨by decide, hd, by omega, by omega⟩ h4
  · obtain ⟨hc, hd, hv⟩ := h5
    subst hc
    have hd0 : digVal '0' = 0 := rfl
    rw [hd0]
    norm_num
  · obtain ⟨hc, hd, hv⟩ := h5
    subst hc
    have hd0 : digVal '0' = 0 := rfl
    have hd7 := digVal_le_nine hd
    exact absurd ⟨by decide, hd, by omega, by omega⟩ h6
  · obtain ⟨h6d, h7d, hlo, hhi⟩ := h7
    have hd6 := digVal_le_nine h6d
    have hd7 := digVal_le_nine h7d
    have hne1 : digVal c6 ≠ 1 := by
      intro hv
      exact h3 ⟨Or.inl ((char_eq_of_digVal h6d 1 hv).trans (by decide)), h7d⟩
    have hne2 : digVal c6 ≠ 2 := by
      intro hv
      exact h3 ⟨Or.inr ((char_eq_of_digVal h6d 2 hv).trans (by decide)), h7d⟩
    have hc3 : digVal c6 = 3 → 2 ≤ digVal c7 := by
      intro hv
      by_contra hlt
      exact h1 ⟨(char_eq_of_digVal h6d 3 hv).trans (by decide), h7d, by omega⟩
    have hc0 : digVal c6 = 0 → digVal c7 = 0 := by
      intro hv
      by_contra hne
      exact h5 ⟨(char_eq_of_digVal h6d 0 hv).trans (by decide), h7d, by omega⟩
    by_cases h60 : digVal c6 = 0
    · have := hc0 h60
      omega
    · by_cases h63 : digVal c6 = 3
      · have := hc3 h63
        omega
      · omega
  · rfl

/-- On a four-character remainder the `%m%d` regexes accept exactly the
zero-padded `MMDD` forms with month 01-12 and day 01-31 (the backtracking
one-character month would leave three characters for `%d`, which can
never match). -/
theorem mdExact_four (c4 c5 c6 c7 : Char) :
    mdExact [c4, c5, c6, c7]
      = if c4.isDigit = true ∧ c5.isDigit = true ∧ c6.isDigit = true ∧ c7.isDigit = true ∧
           1 ≤ 10 * digVal c4 + digVal c5 ∧ 10 * digVal c4 + digVal c5 ≤ 12 ∧
           1 ≤ 10 * digVal c6 + digVal c7 ∧ 10 * digVal c6 + digVal c7 ≤ 31 then
          some (10 * digVal c4 + digVal c5, 10 * digVal c6 + digVal c7)
        else none := by
  have h3none : dayExact [c5, c6, c7] = none := rfl
  by_cases hday : (c6.isDigit = true ∧ c7.isDigit = true ∧
      1 ≤ 10 * digVal c6 + digVal c7 ∧ 10 * digVal c6 + digVal c7 ≤ 31)
  · have hd2 : dayExact [c6, c7] = some (10 * digVal c6 + digVal c7) := by
      rw [dayExact_two, if_pos hday]
    obtain ⟨h6d, h7d, hdlo, hdhi⟩ := hday
    simp only [mdExact, hd2, h3none]
    split_ifs with h1 h2 h3 h4 h5 h6 h7
    · obtain ⟨hc, hd, hv⟩ := h1
      subst hc
      have hdv : digVal '1' = 1 := rfl
      rw [hdv]
    · obtain ⟨hc, hd, hv⟩ := h1
      subst hc
      have hdv : digVal '1' = 1 := rfl
      exact absurd ⟨by decide, hd, h6d, h7d, by omega, by omega, hdlo, hdhi⟩ h2
    · obtain ⟨hc, hd, hv⟩ := h3
      subst hc
      have hdv : digVal '0' = 0 := rfl
      rw [hdv]
      norm_num
    · obtain ⟨hc, hd, hv⟩ := h3
      subst hc
      have hdv : digVal '0' = 0 := rfl
      have hd5 := digVal_le_nine hd
      exact absurd ⟨by decide, hd, h6d, h7d, by omega, by omega, hdlo, hdhi⟩ h4
    · obtain ⟨h4d, h5d, _, _, hmlo, hmhi, _, _⟩ := h6
      have hv4 := digVal_le_nine h4d
      have hv5 := digVal_le_nine h5d
      exfalso
      by_cases h40 : digVal c4 = 0
      · have hc4 : c4 = '0' := (char_eq_of_digVal h4d 0 h40).trans (by decide)
        exact h3 ⟨hc4, h5d, by omega⟩
      · by_cases h41 : digVal c4 = 1
        · have hc4 : c4 = '1' := (char_eq_of_digVal h4d 1 h41).trans (by decide)
          exact h1 ⟨hc4, h5d, by omega⟩
        · omega
    · rfl
    · obtain ⟨h4d, h5d, _, _, hmlo, hmhi, _, _⟩ := h7
      have hv4 := digVal_le_nine h4d
      have hv5 := digVal_le_nine h5d
      exfalso
      have h40 : digVal c4 = 0 := by
        by_contra hne
        exact h5 ⟨h4d, by omega⟩
      have hc4 : c4 = '0' := (char_eq_of_digVal h4d 0 h40).trans (by decide)
      have h50 : digVal c5 = 0 := by
        by_contra hne
        exact h3 ⟨hc4, h5d, by omega⟩
      omega
    · rfl
  · have hd2 : dayExact [c6, c7] = none := by
      rw [dayExact_two, if_neg hday]
    simp only [mdExact, hd2, h3none]
    split_ifs with h1 h2 h3 h4 h5 h6 h7
    all_goals try rfl
    all_goals
      first
      | (obtain ⟨_, _, h6d, h7d, _, _, hdlo, hdhi⟩ := h2
         exact absurd ⟨h6d, h7d, hdlo, hdhi⟩ hday)
      | (obtain ⟨_, _, h6d, h7d, _, _, hdlo, hdhi⟩ := h4
         exact absurd ⟨h6d, h7d, hdlo, hdhi⟩ hday)
      | (obtain ⟨_, _, h6d, h7d, _, _, hdlo, hdhi⟩ := h6
         exact absurd ⟨h6d, h7d, hdlo, hdhi⟩ hday)
      | (obtain ⟨_, _, h6d, h7d, _, _, hdlo, hdhi⟩ := h7
         exact absurd ⟨h6d, h7d, hdlo, hdhi⟩ hday)

/-- C4 (amended): the parse never errors, but it is not an 8-digit gate:
the strptime `%Y%m%d` regexes also accept unpadded month/day values (the
counterexample parses the 7-digit 2024011 to 2024-01-01).  Every
successful parse, of whatever length, yields a valid calendar date inside
the `datetime64[ns]` range (1677-09-22 through 2262-04-11).  For 8-digit
raw values the parse is null exactly when the value is not a valid
calendar date inside that range (valid dates outside it also coerce to
null), it otherwise parses to exactly the denoted date, and formatting
the parsed date back with `%Y%m%d` reproduces the raw value. -/
theorem parseDate_spec (s : String) (d : Date) :
    (s.data.length = 8 →
       (parseDate s = some d ↔ specParse s = some d ∧ inNsBounds d = true)) ∧
    (parseDate s = some d →
       validDate d.year d.month d.day = true ∧ inNsBounds d = true ∧
       (s.data.length = 8 → formatDate d = s)) := by
  obtain ⟨l⟩ := s
  constructor
  · intro hlen
    rcases l with _ | ⟨c0, _ | ⟨c1, _ | ⟨c2, _ | ⟨c3, _ | ⟨c4, _ | ⟨c5, _ | ⟨c6, _ | ⟨c7, _ | ⟨c8, t⟩⟩⟩⟩⟩⟩⟩⟩⟩
    case cons.cons.cons.cons.cons.cons.cons.cons.nil =>
      have hpd : parseDate ⟨[c0, c1, c2, c3, c4, c5, c6, c7]⟩
          = if (c0.isDigit && c1.isDigit && c2.isDigit && c3.isDigit) = true then
              (mdExact [c4, c5, c6, c7]).bind (fun md =>
                if (validDate
                      (1000 * digVal c0 + 100 * digVal c1 + 10 * digVal c2 + digVal c3)
                      md.1 md.2
                    && inNsBounds
                      ⟨1000 * digVal c0 + 100 * digVal c1 + 10 * digVal c2 + digVal c3,
                       md.1, md.2⟩) = true then
                  some ⟨1000 * digVal c0 + 100 * digVal c1 + 10 * digVal c2 + digVal c3,
                        md.1, md.2⟩
                else none)
            else none := rfl
      have hsp : specParse ⟨[c0, c1, c2, c3, c4, c5, c6, c7]⟩
          = if (([c0, c1, c2, c3, c4, c5, c6, c7].all Char.isDigit)
                && validDate (decodeDigits [c0, c1, c2, c3]) (decodeDigits [c4, c5])
                     (decodeDigits [c6, c7])) = true then
              some ⟨decodeDigits [c0, c1, c2, c3], decodeDigits [c4, c5],
                    decodeDigits [c6, c7]⟩
            else none := rfl
      rw [decode4_eq, decode2_eq, decode2_eq] at hsp
      by_cases hdigB : (c0.isDigit && c1.isDigit && c2.isDigit && c3.isDigit) = true
      · by_cases hR : (c4.isDigit = true ∧ c5.isDigit = true ∧ c6.isDigit = true ∧
            c7.isDigit = true ∧
            1 ≤ 10 * digVal c4 + digVal c5 ∧ 10 * digVal c4 + digVal c5 ≤ 12 ∧
            1 ≤ 10 * digVal c6 + digVal c7 ∧ 10 * digVal c6 + digVal c7 ≤ 31)
        · have hmd : mdExact [c4, c5, c6, c7]
              = some (10 * digVal c4 + digVal c5, 10 * digVal c6 + digVal c7) := by
            rw [mdExact_four, if_pos hR]
          have hpd2 : parseDate ⟨[c0, c1, c2, c3, c4, c5, c6, c7]⟩
              = if (validDate
                      (1000 * digVal c0 + 100 * digVal c1 + 10 * digVal c2 + digVal c3)
                      (10 * digVal c4 + digVal c5) (10 * digVal c6 + digVal c7)
                    && inNsBounds
                      ⟨1000 * digVal c0 + 100 * digVal c1 + 10 * digVal c2 + digVal c3,
                       10 * digVal c4 + digVal c5, 10 * digVal c6 + digVal c7⟩) = true then
                  some ⟨1000 * digVal c0 + 100 * digVal c1 + 10 * digVal c2 + digVal c3,
                        10 * digVal c4 + digVal c5, 10 * digVal c6 + digVal c7⟩
                else none := by
            rw [hpd, if_pos hdigB, hmd]
            exact rfl
          obtain ⟨h4, h5, h6, h7, hm1, hm2, hd1, hd2⟩ := hR
          simp only [Bool.and_eq_true] at hdigB
          obtain ⟨⟨⟨h0, h1⟩, h2⟩, h3⟩ := hdigB
          have hallT : ([c0, c1, c2, c3, c4, c5, c6, c7].all Char.isDigit) = true := by
            simp [h0, h1, h2, h3, h4, h5, h6, h7]
          rw [hpd2, hsp, hallT, Bool.true_and]
          by_cases hval : validDate
              (1000 * digVal c0 + 100 * digVal c1 + 10 * digVal c2 + digVal c3)
              (10 * digVal c4 + digVal c5) (10 * digVal c6 + digVal c7) = true
          · rw [if_pos hval]
            by_cases hbnd : inNsBounds
                ⟨1000 * digVal c0 + 100 * digVal c1 + 10 * digVal c2 + digVal c3,
                 10 * digVal c4 + digVal c5, 10 * digVal c6 + digVal c7⟩ = true
            · rw [if_pos (by rw [hval, hbnd]; rfl)]
              constructor
              · intro h
                refine ⟨h, ?_⟩
                have he := Option.some.inj h
                rw [← he]
                exact hbnd
              · rintro ⟨hsome, _⟩
                exact hsome
            · rw [if_neg (by simp [hbnd])]
              constructor
              · intro h
                exact absurd h (by simp)
              · rintro ⟨hsome, hb⟩
                have he := Option.some.inj hsome
                rw [← he] at hb
                exact absurd hb hbnd
          · rw [if_neg hval, if_neg (by simp [hval])]
            simp
        · have hmd : mdExact [c4, c5, c6, c7] = none := by
            rw [mdExact_four, if_neg hR]
          have hpd2 : parseDate ⟨[c0, c1, c2, c3, c4, c5, c6, c7]⟩ = none := by
            rw [hpd, if_pos hdigB, hmd]
            exact rfl
          have hspF : ¬ (([c0, c1, c2, c3, c4, c5, c6, c7].all Char.isDigit)
              && validDate (1000 * digVal c0 + 100 * digVal c1 + 10 * digVal c2 + digVal c3)
                   (10 * digVal c4 + digVal c5) (10 * digVal c6 + digVal c7)) = true := by
            intro hcn
            simp only [Bool.and_eq_true, List.all_cons, List.all_nil, Bool.and_true] at hcn
            obtain ⟨⟨g0, g1, g2, g3, g4, g5, g6, g7⟩, hv⟩ := hcn
            simp only [validDate, Bool.and_eq_true, decide_eq_true_eq] at hv
            obtain ⟨⟨⟨⟨hy, hv1⟩, hv2⟩, hv3⟩, hv4⟩ := hv
            have h31 := daysInMonth_le31
              (1000 * digVal c0 + 100 * digVal c1 + 10 * digVal c2 + digVal c3)
              (10 * digVal c4 + digVal c5)
            exact hR ⟨g4, g5, g6, g7, by omega, by omega, by omega, by omega⟩
          rw [hpd2, hsp, if_neg hspF]
          simp
      · have hpd2 : parseDate ⟨[c0, c1, c2, c3, c4, c5, c6, c7]⟩ = none := by
          rw [hpd, if_neg hdigB]
        have hspF : ¬ (([c0, c1, c2, c3, c4, c5, c6, c7].all Char.isDigit)
            && validDate (1000 * digVal c0 + 100 * digVal c1 + 10 * digVal c2 + digVal c3)
                 (10 * digVal c4 + digVal c5) (10 * digVal c6 + digVal c7)) = true := by
          intro hcn
          apply hdigB
          simp only [Bool.and_eq_true, List.all_cons, List.all_nil, Bool.and_true] at hcn ⊢
          tauto
        rw [hpd2, hsp, if_neg hspF]
        simp
    all_goals
      simp only [List.length_cons, List.length_nil] at hlen
      omega
  · intro h
    rcases l with _ | ⟨c0, _ | ⟨c1, _ | ⟨c2, _ | ⟨c3, rest⟩⟩⟩⟩
    · exact absurd h (by simp [parseDate])
    · exact absurd h (by simp [parseDate])
    · exact absurd h (by simp [parseDate])
    · exact absurd h (by simp [parseDate])
    · have hpd : parseDate ⟨c0 :: c1 :: c2 :: c3 :: rest⟩
          = if (c0.isDigit && c1.isDigit && c2.isDigit && c3.isDigit) = true then
              (mdExact rest).bind (fun md =>
                if (validDate
                      (1000 * digVal c0 + 100 * digVal c1 + 10 * digVal c2 + digVal c3)
                      md.1 md.2
                    && inNsBounds
                      ⟨1000 * digVal c0 + 100 * digVal c1 + 10 * digVal c2 + digVal c3,
                       md.1, md.2⟩) = true then
                  some ⟨1000 * digVal c0 + 100 * digVal c1 + 10 * digVal c2 + digVal c3,
                        md.1, md.2⟩
                else none)
            else none := rfl
      rw [hpd] at h
      by_cases hdigB : (c0.isDigit && c1.isDigit && c2.isDigit && c3.isDigit) = true
      case neg =>
        rw [if_neg hdigB] at h
        exact absurd h (by simp)
      rw [if_pos hdigB] at h
      cases hmd : mdExact rest with
      | none =>
        rw [hmd] at h
        exact absurd h (by simp)
      | some md =>
        rw [hmd] at h
        simp only [Option.some_bind] at h
        by_cases hvb : (validDate
            (1000 * digVal c0 + 100 * digVal c1 + 10 * digVal c2 + digVal c3) md.1 md.2
            && inNsBounds
              ⟨1000 * digVal c0 + 100 * digVal c1 + 10 * digVal c2 + digVal c3,
               md.1, md.2⟩) = true
        case neg =>
          rw [if_neg hvb] at h
          exact absurd h (by simp)
        rw [if_pos hvb] at h
        have he := Option.some.inj h
        simp only [Bool.and_eq_true] at hvb
        refine ⟨?_, ?_, ?_⟩
        · rw [← he]
          exact hvb.1
        · rw [← he]
          exact hvb.2
        · intro hlen
          rcases rest with _ | ⟨c4, _ | ⟨c5, _ | ⟨c6, _ | ⟨c7, _ | ⟨c8, t⟩⟩⟩⟩⟩
          · simp only [List.length_cons, List.length_nil] at hlen
            omega
          · simp only [List.length_cons, List.length_nil] at hlen
            omega
          · simp only [List.length_cons, List.length_nil] at hlen
            omega
          · simp only [List.length_cons, List.length_nil] at hlen
            omega
          case _ =>
            rw [mdExact_four] at hmd
            by_cases hR : (c4.isDigit = true ∧ c5.isDigit = true ∧ c6.isDigit = true ∧
                c7.isDigit = true ∧
                1 ≤ 10 * digVal c4 + digVal c5 ∧ 10 * digVal c4 + digVal c5 ≤ 12 ∧
                1 ≤ 10 * digVal c6 + digVal c7 ∧ 10 * digVal c6 + digVal c7 ≤ 31)
            case neg =>
              rw [if_neg hR] at hmd
              exact absurd hmd (by simp)
            rw [if_pos hR] at hmd
            have hmde := Option.some.inj hmd
            obtain ⟨h4, h5, h6, h7, hm1, hm2, hdl1, hdl2⟩ := hR
            simp only [Bool.and_eq_true] at hdigB
            obtain ⟨⟨⟨h0, h1⟩, h2⟩, h3⟩ := hdigB
            rw [← he, ← hmde]
            show formatDate
                ⟨1000 * digVal c0 + 100 * digVal c1 + 10 * digVal c2 + digVal c3,
                 10 * digVal c4 + digVal c5, 10 * digVal c6 + digVal c7⟩
              = String.mk [c0, c1, c2, c3, c4, c5, c6, c7]
            rw [formatDate]
            have hv0 := digVal_le_nine h0
            have hv1 := digVal_le_nine h1
            have hv2 := digVal_le_nine h2
            have hv3 := digVal_le_nine h3
            have hv4 := digVal_le_nine h4
            have hv5 := digVal_le_nine h5
            have hv6 := digVal_le_nine h6
            have hv7 := digVal_le_nine h7
            have e0 : (1000 * digVal c0 + 100 * digVal c1 + 10 * digVal c2 + digVal c3)
                / 1000 = digVal c0 := by omega
            have e1 : (1000 * digVal c0 + 100 * digVal c1 + 10 * digVal c2 + digVal c3)
                / 100 % 10 = digVal c1 := by omega
            have e2 : (1000 * digVal c0 + 100 * digVal c1 + 10 * digVal c2 + digVal c3)
                / 10 % 10 = digVal c2 := by omega
            have e3 : (1000 * digVal c0 + 100 * digVal c1 + 10 * digVal c2 + digVal c3)
                % 10 = digVal c3 := by omega
            have e4 : (10 * digVal c4 + digVal c5) / 10 = digVal c4 := by omega
            have e5 : (10 * digVal c4 + digVal c5) % 10 = digVal c5 := by omega
            have e6 : (10 * digVal c6 + digVal c7) / 10 = digVal c6 := by omega
            have e7 : (10 * digVal c6 + digVal c7) % 10 = digVal c7 := by omega
            rw [e0, e1, e2, e3, e4, e5, e6, e7]
            rw [digChar_digVal h0, digChar_digVal h1, digChar_digVal h2,
              digChar_digVal h3, digChar_digVal h4, digChar_digVal h5,
              digChar_digVal h6, digChar_digVal h7]
          case _ =>
            simp only [List.length_cons, List.length_nil] at hlen
            omega

/-- C4 counterexample: the claim says every raw value that is not 8 digits
forming a valid calendar date parses to null, and that every 8-digit valid
calendar date parses to itself.  Both directions fail: the 7-digit
2024011 (and 6-digit 202411) parse non-null to 2024-01-01 and 2024123
parses to 2024-12-03, while the 8-digit valid calendar date 15000101 is
coerced to null because it lies outside the `datetime64[ns]` range. -/
theorem parseDate_not_8_digit_gate :
    parseDate "2024011" = some ⟨2024, 1, 1⟩ ∧
    specValidRaw "2024011" = false ∧
    parseDate "202411" = some ⟨2024, 1, 1⟩ ∧
    parseDate "2024123" = some ⟨2024, 12, 3⟩ ∧
    specValidRaw "15000101" = true ∧ validDate 1500 1 1 = true ∧
    parseDate "15000101" = none := by decide

/-- C4 witness: the leap date 2024-02-29 parses to exactly that date and
formats back to the raw value. -/
theorem parseDate_spec_witness :
    parseDate "20240229" = some ⟨2024, 2, 29⟩ ∧
    formatDate ⟨2024, 2, 29⟩ = "20240229" := by
  constructor
  · exact ((parseDate_spec "20240229" ⟨2024, 2, 29⟩).1 (by decide)).mpr ⟨by decide, by decide⟩
  · exact ((parseDate_spec "20240229" ⟨2024, 2, 29⟩).2 (by decide)).2.2 (by decide)
